import Mathlib

/-!
Shallow embedding of the PDF title/outline extraction engine
(src/parser.py, src/main.py) and proofs about its specification.

Numeric conventions: Python floats are modelled as rationals (ℚ); the
literals 1.15, 0.3, 1.1, 1.25, 1.5, 0.7 are modelled as the exact
rationals 23/20, 3/10, 11/10, 5/4, 3/2, 7/10. Character classes \d and
\s and the upper/lower-case tests are modelled over ASCII. Texts are
handled after the .strip() the source applies to them.
-/

/-- Python regex class \s, the ASCII whitespace characters. -/
def pyIsSpace (c : Char) : Bool :=
  c = ' ' || c = '\t' || c = '\n' || c = '\r' || c = '\x0b' || c = '\x0c'

/-- ASCII uppercase letter, the regex class [A-Z]. -/
def isAZ (c : Char) : Bool := 'A' ≤ c && c ≤ 'Z'

/-- ASCII lowercase letter, the regex class [a-z]. -/
def isaz (c : Char) : Bool := 'a' ≤ c && c ≤ 'z'

/-- Python str.strip: drop leading and trailing whitespace. -/
def pyStrip (cs : List Char) : List Char :=
  ((cs.dropWhile pyIsSpace).reverse.dropWhile pyIsSpace).reverse

/-- Python text.split(): split on whitespace runs, dropping empty pieces. -/
def pyWords (cs : List Char) : List (List Char) :=
  (cs.splitOnP pyIsSpace).filter (fun w => !w.isEmpty)

/-- Number of words of a text, len(text.split()) in the source. -/
def wordCount (cs : List Char) : Nat := (pyWords cs).length

/-- Exclusion pattern r'^\d+$' under re.match: the whole text is one or
more digits. -/
def matchPureNumber (cs : List Char) : Bool :=
  !cs.isEmpty && cs.all Char.isDigit

/-- Exclusion pattern r'^page\s+\d+$' under re.match (applied to the
lowercased text, modelling re.IGNORECASE). -/
def matchPageNumber (cs : List Char) : Bool :=
  match cs with
  | 'p' :: 'a' :: 'g' :: 'e' :: rest =>
    let sp := rest.takeWhile pyIsSpace
    let after := rest.dropWhile pyIsSpace
    !sp.isEmpty && !after.isEmpty && after.all Char.isDigit
  | _ => false

/-- Exclusion pattern r'^www\.' under re.match: text starts with www. -/
def matchWww (cs : List Char) : Bool :=
  match cs with
  | 'w' :: 'w' :: 'w' :: '.' :: _ => true
  | _ => false

/-- Exclusion pattern r'@' under re.match. re.match anchors the pattern
at position 0, so this matches only when the FIRST character is the at
sign, not when the text merely contains one. -/
def matchAtSign (cs : List Char) : Bool :=
  match cs with
  | '@' :: _ => true
  | _ => false

/-- Exclusion pattern r'^\([^)]+\)$' under re.match: an opening
parenthesis, one or more characters none of which is a closing
parenthesis, then a closing parenthesis ending the text. -/
def matchParenthetical (cs : List Char) : Bool :=
  match cs with
  | '(' :: rest =>
    let mid := rest.dropLast
    rest.getLast? = some ')' && !mid.isEmpty && mid.all (fun c => c ≠ ')')
  | _ => false

/-- Heading pattern r'^[A-Z][A-Z\s&-]+$': an all-caps line. -/
def matchAllCaps (cs : List Char) : Bool :=
  match cs with
  | c :: rest =>
    isAZ c && !rest.isEmpty &&
      rest.all (fun d => isAZ d || pyIsSpace d || d = '&' || d = '-')
  | [] => false

/-- Heading pattern r'^\d+\.\s+[A-Z]': a numbered section heading
(prefix match, no end anchor). -/
def matchNumbered (cs : List Char) : Bool :=
  let ds := cs.takeWhile Char.isDigit
  let r1 := cs.dropWhile Char.isDigit
  !ds.isEmpty &&
    match r1 with
    | '.' :: r2 =>
      let sp := r2.takeWhile pyIsSpace
      let r3 := r2.dropWhile pyIsSpace
      !sp.isEmpty &&
        match r3 with
        | d :: _ => isAZ d
        | [] => false
    | _ => false

/-- Tail matcher for the title-case pattern: after the first word we
expect zero or more groups of whitespace followed by a capitalised word,
then an optional colon, then the end of the text. -/
def tcGroups : List Char → Bool
  | [] => true
  | c :: rest =>
    if c = ':' then rest.isEmpty
    else if pyIsSpace c then
      match hh : rest.dropWhile pyIsSpace with
      | [] => false
      | d :: r2 => isAZ d && tcGroups (r2.dropWhile isaz)
    else false
termination_by cs => cs.length
decreasing_by
  have h1 : (rest.dropWhile pyIsSpace).length ≤ rest.length :=
    (List.dropWhile_sublist pyIsSpace).length_le
  rw [hh] at h1
  have h2 : (r2.dropWhile isaz).length ≤ r2.length :=
    (List.dropWhile_sublist isaz).length_le
  simp only [List.length_cons] at h1 ⊢
  omega

/-- Heading pattern r'^[A-Z][a-z]+(?:\s+[A-Z][a-z]*)*:?$': a title-case
phrase, full match. -/
def matchTitleCase (cs : List Char) : Bool :=
  match cs with
  | c :: rest =>
    isAZ c && !(rest.takeWhile isaz).isEmpty && tcGroups (rest.dropWhile isaz)
  | [] => false

/-- Heading pattern r'^[IVX]+\.\s+': a roman-numeral section heading
(prefix match). -/
def matchRoman (cs : List Char) : Bool :=
  let ivx : Char → Bool := fun c => c = 'I' || c = 'V' || c = 'X'
  let rs := cs.takeWhile ivx
  !rs.isEmpty &&
    match cs.dropWhile ivx with
    | '.' :: r2 => !(r2.takeWhile pyIsSpace).isEmpty
    | _ => false

/-- Heading pattern r'^Chapter\s+\d+' (prefix match). -/
def matchChapter (cs : List Char) : Bool :=
  match cs with
  | 'C' :: 'h' :: 'a' :: 'p' :: 't' :: 'e' :: 'r' :: rest =>
    let sp := rest.takeWhile pyIsSpace
    let after := rest.dropWhile pyIsSpace
    !sp.isEmpty &&
      match after with
      | d :: _ => d.isDigit
      | [] => false
  | _ => false

/-- Heading pattern r'^Section\s+\d+' (prefix match). -/
def matchSect (cs : List Char) : Bool :=
  match cs with
  | 'S' :: 'e' :: 'c' :: 't' :: 'i' :: 'o' :: 'n' :: rest =>
    let sp := rest.takeWhile pyIsSpace
    let after := rest.dropWhile pyIsSpace
    !sp.isEmpty &&
      match after with
      | d :: _ => d.isDigit
      | [] => false
  | _ => false

/-- Exclusion check of _is_potential_heading: the five exclusion
patterns are tried with re.match and re.IGNORECASE, modelled by matching
the lowercased text. -/
def matchesExclusion (cs : List Char) : Bool :=
  let tl := cs.map Char.toLower
  matchPureNumber tl || matchPageNumber tl || matchWww tl ||
    matchAtSign tl || matchParenthetical tl

/-- Acceptance check of _is_potential_heading: the six heading patterns
are tried with re.match, case sensitively. -/
def matchesHeadingPattern (cs : List Char) : Bool :=
  matchAllCaps cs || matchNumbered cs || matchTitleCase cs ||
    matchRoman cs || matchChapter cs || matchSect cs

/-- PDFParser1A._is_potential_heading: the per-span heading predicate.
Optional font size and body size model the Python default arguments;
Python truthiness makes a zero size behave like an absent one. -/
def is_potential_heading (text : String) (font_size body_size : Option ℚ) : Bool :=
  if text = "" || (pyStrip text.data).length < 2 then false
  else
    let t := pyStrip text.data
    if matchesExclusion t then false
    else if t.length > 200 || wordCount t > 20 then false
    else if matchesHeadingPattern t then true
    else if (match font_size, body_size with
             | some f, some b => !(f = 0) && !(b = 0) && decide (f > b * (11/10))
             | _, _ => false) then true
    else if t.getLast? = some ':' && wordCount t ≤ 5 then true
    else if wordCount t ≤ 8 && (match t with
                                | c :: _ => c.isUpper
                                | [] => false) then true
    else false

example : is_potential_heading "REVENUE AND EXPENSES" none none = true := by decide
example : is_potential_heading "42" none none = false := by decide
example : is_potential_heading "(see appendix)" none none = false := by decide
example : is_potential_heading "1. Introduction" none none = true := by decide
example : is_potential_heading "A@B" none none = true := by decide
example : is_potential_heading "@section" none none = false := by decide
example : is_potential_heading "Page 12" none none = false := by decide

/-- Python max(xs, key=k) with running best: a later element replaces the
current best only when its key is strictly greater, so the FIRST maximal
element is returned. -/
def pyMaxBy {α β : Type} [LinearOrder β] (key : α → β) : α → List α → α
  | x, [] => x
  | x, y :: ys => pyMaxBy key (if key y > key x then y else x) ys

/-- Insertion step of a stable descending sort by a rational key. -/
def insertByGe {α : Type} (key : α → ℚ) (p : α) : List α → List α
  | [] => [p]
  | q :: qs => if key q < key p then p :: q :: qs else q :: insertByGe key p qs

/-- Python sorted(xs, key=key, reverse=True): sort descending by key. -/
def sortByDesc {α : Type} (key : α → ℚ) : List α → List α
  | [] => []
  | p :: ps => insertByGe key p (sortByDesc key ps)

/-- Admission test of _classify_heading_levels: a font size is admitted
as a heading size when size/bodySize > 1.15 and its word count is below
30 percent of the body word count (1.15 and 0.3 modelled exactly). -/
def admission (bodySize : ℚ) (bodyCount : Nat) (p : ℚ × Nat) : Bool :=
  decide (p.1 / bodySize > 23/20) && decide ((p.2 : ℚ) < (bodyCount : ℚ) * (3/10))

/-- Loop body of _classify_heading_levels: walk the descending size list
with the running level counter; an admitted size receives H1, H2 or H3,
a fourth admission breaks the loop, and a failed test merely skips the
size and continues the walk. -/
def classifyLoop (bodySize : ℚ) (bodyCount : Nat) :
    List (ℚ × Nat) → Nat → List (ℚ × String)
  | [], _ => []
  | p :: rest, lc =>
    if admission bodySize bodyCount p then
      if lc = 1 then (p.1, "H1") :: classifyLoop bodySize bodyCount rest (lc + 1)
      else if lc = 2 then (p.1, "H2") :: classifyLoop bodySize bodyCount rest (lc + 1)
      else if lc = 3 then (p.1, "H3") :: classifyLoop bodySize bodyCount rest (lc + 1)
      else []
    else classifyLoop bodySize bodyCount rest lc

/-- Return value of _classify_heading_levels: the empty-input branch
returns a bare empty dict while every other branch returns the pair
(heading_map, body_font_size). -/
inductive ClassifyResult where
  | emptyDict : ClassifyResult
  | pair (headingMap : List (ℚ × String)) (bodySize : ℚ) : ClassifyResult
deriving DecidableEq

/-- PDFParser1A._classify_heading_levels. The font statistics are an
insertion-ordered association list from rounded font size to word count,
modelling the Python dict; the body candidate is the first bucket with
maximal count, as Python max over dict items returns. -/
def classify_heading_levels (font_stats : List (ℚ × Nat)) : ClassifyResult :=
  match font_stats with
  | [] => .emptyDict
  | f :: fs =>
    let sorted_fonts := sortByDesc (fun p => p.1) (f :: fs)
    let body := pyMaxBy (fun p => (p.2 : ℚ)) f fs
    .pair (classifyLoop body.1 body.2 sorted_fonts 1) body.1

/-- Tuple unpacking at the call site in _parse_with_pdfminer, line 232:
heading_map, body_font_size = self._classify_heading_levels(font_stats).
Unpacking the bare empty dict of the empty-input branch raises
ValueError (zero values to unpack into two targets), modelled as none;
the exception is caught by the enclosing except, which aborts the whole
native path. -/
def unpackClassify : ClassifyResult → Option (List (ℚ × String) × ℚ)
  | .emptyDict => none
  | .pair m b => some (m, b)

/-- Heading labels still available when the level counter stands at the
given value. -/
def levelsFrom : Nat → List String
  | 1 => ["H1", "H2", "H3"]
  | 2 => ["H2", "H3"]
  | 3 => ["H3"]
  | _ => []

/-- Pair the sizes of the first list with the labels of the second,
stopping at the shorter one. -/
def zipLevels : List (ℚ × Nat) → List String → List (ℚ × String)
  | _, [] => []
  | [], _ => []
  | p :: ps, l :: ls => (p.1, l) :: zipLevels ps ls

theorem zipLevels_length_le (l : List (ℚ × Nat)) (ls : List String) :
    (zipLevels l ls).length ≤ ls.length := by
  induction l generalizing ls with
  | nil => cases ls <;> simp [zipLevels]
  | cons p ps ih =>
    cases ls with
    | nil => simp [zipLevels]
    | cons x xs => simpa [zipLevels] using ih xs

theorem zipLevels_map_snd (l : List (ℚ × Nat)) (ls : List String) :
    (zipLevels l ls).map Prod.snd = ls.take (zipLevels l ls).length := by
  induction l generalizing ls with
  | nil => cases ls <;> simp [zipLevels]
  | cons p ps ih =>
    cases ls with
    | nil => simp [zipLevels]
    | cons x xs => simpa [zipLevels] using ih xs

theorem zipLevels_map_fst_sublist (l : List (ℚ × Nat)) (ls : List String) :
    List.Sublist ((zipLevels l ls).map Prod.fst) (l.map Prod.fst) := by
  induction l generalizing ls with
  | nil => cases ls <;> simp [zipLevels]
  | cons p ps ih =>
    cases ls with
    | nil => simp [zipLevels]
    | cons x xs =>
      simpa [zipLevels] using (ih xs).cons₂ p.1

theorem zipLevels_nil_right (l : List (ℚ × Nat)) : zipLevels l [] = [] := by
  cases l <;> rfl

theorem classifyLoop_four (bodySize : ℚ) (bodyCount : Nat)
    (fonts : List (ℚ × Nat)) : classifyLoop bodySize bodyCount fonts 4 = [] := by
  induction fonts with
  | nil => rfl
  | cons p rest ih =>
    by_cases hadm : admission bodySize bodyCount p <;>
      simp [classifyLoop, hadm, ih]

theorem classifyLoop_three (bodySize : ℚ) (bodyCount : Nat)
    (fonts : List (ℚ × Nat)) :
    classifyLoop bodySize bodyCount fonts 3 =
      zipLevels (fonts.filter (admission bodySize bodyCount)) ["H3"] := by
  induction fonts with
  | nil => rfl
  | cons p rest ih =>
    by_cases hadm : admission bodySize bodyCount p <;>
      simp [classifyLoop, hadm, List.filter_cons, zipLevels, ih,
        classifyLoop_four, zipLevels_nil_right]

theorem classifyLoop_two (bodySize : ℚ) (bodyCount : Nat)
    (fonts : List (ℚ × Nat)) :
    classifyLoop bodySize bodyCount fonts 2 =
      zipLevels (fonts.filter (admission bodySize bodyCount)) ["H2", "H3"] := by
  induction fonts with
  | nil => rfl
  | cons p rest ih =>
    by_cases hadm : admission bodySize bodyCount p <;>
      simp [classifyLoop, hadm, List.filter_cons, zipLevels, ih,
        classifyLoop_three]

/-- Closed form of the classifier loop started at counter 1: the heading
map pairs the sizes that individually pass the admission test, in walk
order, with H1, H2, H3; a failed test skips the size without ending the
walk. -/
theorem classifyLoop_closed (bodySize : ℚ) (bodyCount : Nat)
    (fonts : List (ℚ × Nat)) :
    classifyLoop bodySize bodyCount fonts 1 =
      zipLevels (fonts.filter (admission bodySize bodyCount)) ["H1", "H2", "H3"] := by
  induction fonts with
  | nil => rfl
  | cons p rest ih =>
    by_cases hadm : admission bodySize bodyCount p <;>
      simp [classifyLoop, hadm, List.filter_cons, zipLevels, ih,
        classifyLoop_two]

theorem insertByGe_perm {α : Type} (key : α → ℚ) (p : α) (l : List α) :
    List.Perm (insertByGe key p l) (p :: l) := by
  induction l with
  | nil => exact List.Perm.refl _
  | cons q qs ih =>
    by_cases h : key q < key p
    · simp [insertByGe, h]
    · simp only [insertByGe, if_neg h]
      exact (ih.cons q).trans (List.Perm.swap p q qs)

theorem sortByDesc_perm {α : Type} (key : α → ℚ) (l : List α) :
    List.Perm (sortByDesc key l) l := by
  induction l with
  | nil => exact List.Perm.refl _
  | cons p ps ih =>
    exact (insertByGe_perm key p _).trans (ih.cons p)

theorem insertByGe_pairwise {α : Type} (key : α → ℚ) (p : α) (l : List α)
    (h : l.Pairwise (fun a b => key b ≤ key a)) :
    (insertByGe key p l).Pairwise (fun a b => key b ≤ key a) := by
  induction l with
  | nil => simp [insertByGe]
  | cons q qs ih =>
    rcases List.pairwise_cons.mp h with ⟨hq, hqs⟩
    by_cases hlt : key q < key p
    · simp only [insertByGe, if_pos hlt]
      refine List.Pairwise.cons ?_ h
      intro b hb
      rcases List.mem_cons.mp hb with rfl | hbqs
      · exact le_of_lt hlt
      · exact (hq b hbqs).trans (le_of_lt hlt)
    · simp only [insertByGe, if_neg hlt]
      refine List.Pairwise.cons ?_ (ih hqs)
      intro b hb
      have hb2 : b ∈ p :: qs := (insertByGe_perm key p qs).subset hb
      rcases List.mem_cons.mp hb2 with rfl | hbqs
      · exact le_of_not_lt hlt
      · exact hq b hbqs

theorem sortByDesc_pairwise {α : Type} (key : α → ℚ) (l : List α) :
    (sortByDesc key l).Pairwise (fun a b => key b ≤ key a) := by
  induction l with
  | nil => simp [sortByDesc]
  | cons p ps ih => exact insertByGe_pairwise key p _ ih

/-- C1 (counterexample part): in the font statistics
{20.0: 50 words, 15.0: 10 words, 10.0: 100 words} the body size is 10
with 100 words; the walk first visits size 20, which FAILS the admission
test (its 50 words are not below 30 percent of 100), yet the later size
15 is still admitted and mapped to H1 — the walk does not stop at the
first failing candidate, refuting the strict prefix rule. -/
theorem C1_strict_prefix_cex :
    admission 10 100 (20, 50) = false ∧
    classify_heading_levels [(20, 50), (15, 10), (10, 100)] =
      ClassifyResult.pair [(15, "H1")] 10 := by
  constructor
  · norm_num [admission]
  · norm_num [classify_heading_levels, sortByDesc, insertByGe, pyMaxBy,
      classifyLoop, admission, zipLevels]

/-- C1 (amended): during the descending walk a size that fails the
admission test is merely skipped and the walk continues; the heading map
consists of the first up to three sizes, in descending order, that each
individually pass the test (a failure never ends the walk — only a
fourth passing size does, without changing the map). -/
theorem C1_skip_and_continue (f : ℚ × Nat) (fs : List (ℚ × Nat)) :
    classify_heading_levels (f :: fs) =
      ClassifyResult.pair
        (zipLevels
          ((sortByDesc (fun p => p.1) (f :: fs)).filter
            (admission (pyMaxBy (fun p => (p.2 : ℚ)) f fs).1
                   (pyMaxBy (fun p => (p.2 : ℚ)) f fs).2))
          ["H1", "H2", "H3"])
        (pyMaxBy (fun p => (p.2 : ℚ)) f fs).1 := by
  simp [classify_heading_levels, classifyLoop_closed]

/-- C3: for every font-statistics mapping (distinct size keys, as in a
Python dict) that yields a heading map, the map has at most 3 entries,
its admitted sizes strictly decrease, and the assigned levels are
exactly the prefix H1, H2, H3 of that length, in order with no gaps. -/
theorem C3_heading_map_invariants (fs : List (ℚ × Nat))
    (hnd : (fs.map Prod.fst).Nodup) (m : List (ℚ × String)) (b : ℚ)
    (h : classify_heading_levels fs = ClassifyResult.pair m b) :
    m.length ≤ 3 ∧ (m.map Prod.fst).Pairwise (fun a c => a > c) ∧
      m.map Prod.snd = ["H1", "H2", "H3"].take m.length := by
  cases fs with
  | nil => simp [classify_heading_levels] at h
  | cons f rest =>
    rw [C1_skip_and_continue] at h
    have hm : m = zipLevels
        ((sortByDesc (fun p => p.1) (f :: rest)).filter
          (admission (pyMaxBy (fun p => (p.2 : ℚ)) f rest).1
                 (pyMaxBy (fun p => (p.2 : ℚ)) f rest).2))
        ["H1", "H2", "H3"] := by
      cases h
      rfl
    set sorted := sortByDesc (fun p : ℚ × Nat => p.1) (f :: rest) with hs
    have hperm : List.Perm (sorted.map Prod.fst) ((f :: rest).map Prod.fst) :=
      (sortByDesc_perm _ _).map Prod.fst
    have hnds : (sorted.map Prod.fst).Nodup := (hperm.nodup_iff).mpr hnd
    have hle : (sorted.map Prod.fst).Pairwise (fun a c => c ≤ a) :=
      (List.pairwise_map).mpr (sortByDesc_pairwise _ _)
    have hgt : (sorted.map Prod.fst).Pairwise (fun a c => a > c) := by
      have := hle.and hnds
      exact this.imp (fun hac => lt_of_le_of_ne hac.1 (Ne.symm hac.2))
    have hsub : List.Sublist (m.map Prod.fst) (sorted.map Prod.fst) := by
      rw [hm]
      exact (zipLevels_map_fst_sublist _ _).trans
        ((List.filter_sublist _).map Prod.fst)
    refine ⟨?_, hgt.sublist hsub, ?_⟩
    · rw [hm]
      exact zipLevels_length_le _ _
    · rw [hm]
      exact zipLevels_map_snd _ _

/-- C3 witness: the statistics {20.0: 2 words, 10.0: 100 words} yield
the heading map {20.0: H1} with body size 10, which satisfies all three
invariants. -/
theorem C3_witness :
    [((20 : ℚ), "H1")].length ≤ 3 ∧
      ([((20 : ℚ), "H1")].map Prod.fst).Pairwise (fun a c => a > c) ∧
      [((20 : ℚ), "H1")].map Prod.snd =
        ["H1", "H2", "H3"].take [((20 : ℚ), "H1")].length :=
  C3_heading_map_invariants [(20, 2), (10, 100)] (by norm_num)
    [((20 : ℚ), "H1")] 10
    (by norm_num [classify_heading_levels, sortByDesc, insertByGe, pyMaxBy,
      classifyLoop, admission, zipLevels])

/-- C4: on empty font statistics the classifier itself raises nothing
and returns a bare empty dict — but that bare dict cannot be unpacked
into the pair (heading_map, body_font_size) that the call site in
_parse_with_pdfminer expects, so the native path aborts with ValueError
(caught by its except clause) instead of continuing gracefully; every
non-empty input returns an unpackable pair. -/
theorem C4_empty_stats_unpack :
    classify_heading_levels [] = ClassifyResult.emptyDict ∧
    unpackClassify ClassifyResult.emptyDict = none ∧
    ∀ m b, unpackClassify (ClassifyResult.pair m b) = some (m, b) :=
  ⟨rfl, rfl, fun _ _ => rfl⟩

/-- Title candidate of _extract_title_candidates: text of a first-page
block with its average character font size, vertical origin, word count
and character count. -/
structure TitleCandidate where
  text : String
  font_size : ℚ
  y_position : ℚ
  word_count : Nat
  char_count : Nat

/-- Score accumulation of _extract_title_candidates, following the
sequential additions of the source: font-size weight, position weight,
length optimisation around the ideal 6 words, and the flat penalty for
more than 15 words. -/
def candScore (maxFont maxY : ℚ) (c : TitleCandidate) : ℚ :=
  let s1 : ℚ := 0 + (c.font_size / maxFont) * 40
  let s2 : ℚ := s1 + (c.y_position / maxY) * 30
  let length_score : ℚ := max 0 (20 - |(c.word_count : ℚ) - 6| * 2)
  let s3 : ℚ := s2 + length_score
  if c.word_count > 15 then s3 - 20 else s3

/-- Modelled from the spec: the §4.4 scoring formula, written exactly as
the spec states it, for comparison with the code score candScore. -/
def specTitleScore (maxFont maxY : ℚ) (c : TitleCandidate) : ℚ :=
  40 * (c.font_size / maxFont) + 30 * (c.y_position / maxY) +
    max 0 (20 - 2 * |(c.word_count : ℚ) - 6|) -
    (if c.word_count > 15 then 20 else 0)

/-- PDFParser1A._extract_title_candidates, from the point where the
candidate records exist: empty candidate set yields the empty title,
otherwise the maxima of font size and vertical position are taken over
all candidates and the first highest-scoring candidate's text (Python
max semantics) is returned. -/
def extract_title_candidates (cands : List TitleCandidate) : String :=
  match cands with
  | [] => ""
  | c :: cs =>
    let maxFont := (cs.map (fun d => d.font_size)).foldl max c.font_size
    let maxY := (cs.map (fun d => d.y_position)).foldl max c.y_position
    (pyMaxBy (candScore maxFont maxY) c cs).text

theorem pyMaxBy_mem {α β : Type} [LinearOrder β] (key : α → β) (x : α)
    (ys : List α) : pyMaxBy key x ys ∈ x :: ys := by
  induction ys generalizing x with
  | nil => simp [pyMaxBy]
  | cons y ys ih =>
    simp only [pyMaxBy]
    by_cases h : key y > key x
    · rw [if_pos h]
      rcases List.mem_cons.mp (ih y) with h1 | h1
      · simp [h1]
      · simp [List.mem_cons, h1]
    · rw [if_neg h]
      rcases List.mem_cons.mp (ih x) with h1 | h1
      · simp [h1]
      · simp [List.mem_cons, h1]

theorem pyMaxBy_le {α β : Type} [LinearOrder β] (key : α → β) (x : α)
    (ys : List α) : ∀ a ∈ x :: ys, key a ≤ key (pyMaxBy key x ys) := by
  induction ys generalizing x with
  | nil =>
    intro a ha
    rcases List.mem_cons.mp ha with rfl | h1
    · exact le_refl _
    · simp at h1
  | cons y ys ih =>
    intro a ha
    simp only [pyMaxBy]
    by_cases h : key y > key x
    · rw [if_pos h]
      rcases List.mem_cons.mp ha with rfl | h1
      · exact (le_of_lt h).trans (ih y y (List.mem_cons_self y ys))
      · exact ih y a h1
    · rw [if_neg h]
      rcases List.mem_cons.mp ha with rfl | h1
      · exact ih a a (List.mem_cons_self a ys)
      · rcases List.mem_cons.mp h1 with rfl | h2
        · exact (le_of_not_lt h).trans (ih x x (List.mem_cons_self x ys))
        · exact ih x a (List.mem_cons.mpr (Or.inr h2))

/-- C6: the code score of every candidate equals the spec formula
40(fontSize/maxFont) + 30(y/maxY) + max(0, 20 - 2|wordCount - 6|) minus
the flat 20 when wordCount exceeds 15; the empty candidate set yields
the empty title; and on a non-empty candidate set the returned title is
the text of a candidate whose score is maximal among all candidates. -/
theorem C6_title_selector :
    (∀ maxFont maxY c, candScore maxFont maxY c = specTitleScore maxFont maxY c) ∧
    extract_title_candidates [] = "" ∧
    (∀ c cs, ∃ b ∈ c :: cs,
      extract_title_candidates (c :: cs) = b.text ∧
      ∀ d ∈ c :: cs,
        candScore ((cs.map (fun e => e.font_size)).foldl max c.font_size)
            ((cs.map (fun e => e.y_position)).foldl max c.y_position) d ≤
          candScore ((cs.map (fun e => e.font_size)).foldl max c.font_size)
            ((cs.map (fun e => e.y_position)).foldl max c.y_position) b) := by
  refine ⟨?_, rfl, ?_⟩
  · intro mF mY c
    have hmax : |(c.word_count : ℚ) - 6| * 2 = 2 * |(c.word_count : ℚ) - 6| :=
      mul_comm _ _
    by_cases h : c.word_count > 15
    · simp only [candScore, specTitleScore, if_pos h, hmax]
      ring
    · simp only [candScore, specTitleScore, if_neg h, hmax]
      ring
  · intro c cs
    exact ⟨pyMaxBy (candScore _ _) c cs, pyMaxBy_mem _ _ _, rfl, pyMaxBy_le _ _ _⟩

/-- C6 witness: a concrete two-candidate set; the selector picks the
candidate with the larger score and the code score agrees with the spec
formula on it. -/
theorem C6_witness :
    extract_title_candidates [] = "" ∧
    (∃ b ∈ [TitleCandidate.mk "Annual Report" 24 700 2 13],
      extract_title_candidates [TitleCandidate.mk "Annual Report" 24 700 2 13] =
        b.text ∧
      ∀ d ∈ [TitleCandidate.mk "Annual Report" 24 700 2 13],
        candScore (([] : List TitleCandidate).foldl (fun m e => max m e.font_size) 24)
            (([] : List TitleCandidate).foldl (fun m e => max m e.y_position) 700) d ≤
          candScore (([] : List TitleCandidate).foldl (fun m e => max m e.font_size) 24)
            (([] : List TitleCandidate).foldl (fun m e => max m e.y_position) 700) b) ∧
    candScore 24 700 (TitleCandidate.mk "Annual Report" 24 700 2 13) =
      specTitleScore 24 700 (TitleCandidate.mk "Annual Report" 24 700 2 13) := by
  refine ⟨C6_title_selector.2.1, ?_, C6_title_selector.1 24 700 _⟩
  simpa using C6_title_selector.2.2 (TitleCandidate.mk "Annual Report" 24 700 2 13) []

/-- Outline entry: heading level, trimmed text and 1-indexed page. -/
structure Entry where
  level : String
  text : String
  page : Int
deriving DecidableEq

/-- Deduplication loop of parse (lines 381 to 387): walk the outline
keeping a seen set of texts, appending an item only when its text has
not been seen. -/
def dedupAux : List Entry → List String → List Entry
  | [], _ => []
  | e :: es, seen =>
    if seen.contains e.text then dedupAux es seen
    else e :: dedupAux es (seen ++ [e.text])

/-- Text-based outline deduplication starting from an empty seen set. -/
def dedupOutline (l : List Entry) : List Entry := dedupAux l []

theorem dedupAux_subset {l : List Entry} {seen : List String} {e : Entry}
    (h : e ∈ dedupAux l seen) : e ∈ l := by
  induction l generalizing seen with
  | nil => simpa [dedupAux] using h
  | cons x es ih =>
    by_cases hc : seen.contains x.text
    · simp only [dedupAux, if_pos hc] at h
      exact List.mem_cons.mpr (Or.inr (ih h))
    · simp only [dedupAux, if_neg hc] at h
      rcases List.mem_cons.mp h with rfl | h1
      · exact List.mem_cons_self _ _
      · exact List.mem_cons.mpr (Or.inr (ih h1))

theorem dedupAux_text_not_seen {l : List Entry} {seen : List String} {e : Entry}
    (h : e ∈ dedupAux l seen) : e.text ∉ seen := by
  induction l generalizing seen with
  | nil => simp [dedupAux] at h
  | cons x es ih =>
    by_cases hc : seen.contains x.text
    · simp only [dedupAux, if_pos hc] at h
      exact ih h
    · simp only [dedupAux, if_neg hc] at h
      rcases List.mem_cons.mp h with rfl | h1
      · intro hmem
        exact hc (List.elem_iff.mpr hmem)
      · intro hmem
        exact ih h1 (List.mem_append.mpr (Or.inl hmem))

theorem dedupAux_nodup (l : List Entry) (seen : List String) :
    ((dedupAux l seen).map (fun e => e.text)).Nodup := by
  induction l generalizing seen with
  | nil => simp [dedupAux]
  | cons x es ih =>
    by_cases hc : seen.contains x.text
    · simpa only [dedupAux, if_pos hc] using ih seen
    · simp only [dedupAux, if_neg hc, List.map_cons]
      refine List.nodup_cons.mpr ⟨?_, ih (seen ++ [x.text])⟩
      intro hmem
      rcases List.mem_map.mp hmem with ⟨e, he, het⟩
      have := dedupAux_text_not_seen he
      exact this (List.mem_append.mpr (Or.inr (by simp [het])))

theorem dedupAux_eq_self (m : List Entry) (seen : List String)
    (hnd : (m.map (fun e => e.text)).Nodup)
    (hs : ∀ e ∈ m, e.text ∉ seen) : dedupAux m seen = m := by
  induction m generalizing seen with
  | nil => rfl
  | cons x es ih =>
    simp only [List.map_cons, List.nodup_cons] at hnd
    obtain ⟨hx, hes⟩ := hnd
    have hc : seen.contains x.text = false := by
      by_cases h : seen.contains x.text
      · exact absurd (List.elem_iff.mp h) (hs x (List.mem_cons_self _ _))
      · simpa using h
    simp only [dedupAux, hc, Bool.false_eq_true, if_false]
    congr 1
    refine ih (seen ++ [x.text]) hes ?_
    intro e he hmem
    rcases List.mem_append.mp hmem with h1 | h1
    · exact hs e (List.mem_cons.mpr (Or.inr he)) h1
    · have : e.text = x.text := by simpa using h1
      exact hx (this ▸ List.mem_map.mpr ⟨e, he, rfl⟩)

theorem dedupAux_find (l : List Entry) (seen : List String) (e : Entry)
    (h : e ∈ dedupAux l seen) :
    l.find? (fun x => x.text == e.text) = some e := by
  induction l generalizing seen with
  | nil => simp [dedupAux] at h
  | cons x es ih =>
    by_cases hc : seen.contains x.text
    · simp only [dedupAux, if_pos hc] at h
      have hne : (x.text == e.text) = false := by
        refine beq_eq_false_iff_ne.mpr ?_
        intro hx
        exact dedupAux_text_not_seen h (hx ▸ List.elem_iff.mp hc)
      rw [List.find?_cons_of_neg _ (by simp [hne])]
      exact ih seen h
    · simp only [dedupAux, if_neg hc] at h
      rcases List.mem_cons.mp h with rfl | h1
      · exact List.find?_cons_of_pos _ (beq_self_eq_true _)
      · have hnotin := dedupAux_text_not_seen h1
        have hne : (x.text == e.text) = false := by
          refine beq_eq_false_iff_ne.mpr ?_
          intro hx
          exact hnotin (List.mem_append.mpr (Or.inr (by simp [hx])))
        rw [List.find?_cons_of_neg _ (by simp [hne])]
        exact ih (seen ++ [x.text]) h1

/-- C9: the text-based deduplication is idempotent — its output has
pairwise distinct texts, so a second pass keeps every item. -/
theorem C9_dedup_idempotent (l : List Entry) :
    dedupOutline (dedupOutline l) = dedupOutline l :=
  dedupAux_eq_self _ _ (dedupAux_nodup l [])
    (fun _ _ hmem => (List.not_mem_nil _) hmem)

/-- Document record: the sole output entity, a title and an outline. -/
structure DocRecord where
  title : String
  outline : List Entry
deriving DecidableEq

/-- Python string or: the left operand when it is truthy (non-empty),
otherwise the right operand. -/
def pyOrStr (a b : String) : String := if a = "" then b else a

/-- Python basename.replace(".pdf", ""): delete every occurrence of the
substring .pdf, scanning left to right. -/
def stripPdfExt : List Char → List Char
  | '.' :: 'p' :: 'd' :: 'f' :: rest => stripPdfExt rest
  | c :: rest => c :: stripPdfExt rest
  | [] => []

/-- Filename with its .pdf extension removed, as the final fallback of
parse computes it. -/
def stripExt (basename : String) : String := ⟨stripPdfExt basename.data⟩

/-- PDFParser1A.parse: the orchestrator over the two path results. The
native and OCR results are none when the respective path raised (the
source catches the exception and returns None); the merge branch runs
when the native result exists but has an empty (falsy) title and
outline and the OCR result exists; the filename fallback runs only when
both results are none. -/
def parse (native ocr_result : Option DocRecord) (basename : String) : DocRecord :=
  match native with
  | some result =>
    if result.title = "" ∧ result.outline = [] then
      match ocr_result with
      | some o =>
        DocRecord.mk (pyOrStr result.title o.title)
          (dedupOutline (result.outline ++ o.outline))
      | none => result
    else result
  | none =>
    match ocr_result with
    | some o => o
    | none => DocRecord.mk (stripExt basename) []

/-- C2 (counterexample part): when the native path raises (result none)
and the OCR path succeeds with an empty title and outline, parse returns
the OCR record {title: empty, outline: empty} unchanged — not the
filename-derived record the claim demands. -/
theorem C2_fallback_cex :
    parse none (some (DocRecord.mk "" [])) "report.pdf" = DocRecord.mk "" [] ∧
    parse none (some (DocRecord.mk "" [])) "report.pdf" ≠
      DocRecord.mk (stripExt "report.pdf") [] := by
  refine ⟨rfl, ?_⟩
  intro h
  have : ("" : String) = "report" := congrArg DocRecord.title h
  exact absurd this (by decide)

/-- C2 (amended): when the native path raises and the OCR path succeeds
returning an empty title and empty outline, the final record is that OCR
record {title: empty, outline: empty}; the filename-without-extension
fallback is produced only when the OCR path also fails (returns none). -/
theorem C2_fallback_amended (o : DocRecord) (basename : String)
    (h1 : o.title = "") (h2 : o.outline = []) :
    parse none (some o) basename = o ∧
    parse none none basename = DocRecord.mk (stripExt basename) [] :=
  ⟨rfl, rfl⟩

/-- C2 witness: the amended behaviour at a concrete document name. -/
theorem C2_fallback_witness :
    parse none (some (DocRecord.mk "" [])) "doc.pdf" = DocRecord.mk "" [] ∧
    parse none none "doc.pdf" = DocRecord.mk (stripExt "doc.pdf") [] :=
  C2_fallback_amended (DocRecord.mk "" []) "doc.pdf" rfl rfl

/-- Text block of the native path: the stripped block text and the list
of its characters' rounded font sizes (empty when the block exposes no
character data). -/
structure Block where
  text : String
  sizes : List ℚ

/-- Counter construction over the size list: counts keyed by value in
first-occurrence order, as a Python Counter iterates. -/
def counterPairs (xs : List ℚ) : List (ℚ × Nat) :=
  xs.foldl (fun acc x =>
    if acc.any (fun p => decide (p.1 = x)) then
      acc.map (fun p => if p.1 = x then (p.1, p.2 + 1) else p)
    else acc ++ [(x, 1)]) []

/-- Counter(sizes).most_common(1)[0][0]: the first value of maximal
count (most_common sorts stably by descending count), none on an empty
list. -/
def mostCommon1 (xs : List ℚ) : Option ℚ :=
  match counterPairs xs with
  | [] => none
  | p :: ps => some (pyMaxBy (fun q => q.2) p ps).1

/-- Python dict.get on the heading map: first matching key wins. -/
def alistGet (m : List (ℚ × String)) (k : ℚ) : Option String :=
  (m.find? (fun p => decide (p.1 = k))).map (fun p => p.2)

/-- Per-block level decision of _parse_with_pdfminer (lines 260 to 272):
the heading map is consulted first; only when it has no entry for the
dominant size is the heading predicate consulted, with the size-ratio
level rule 1.5, 1.25, 1.1 (a non-positive body size is modelled by the
source's ratio default of 1, which admits no level). -/
def nativeBlockLevel (heading_map : List (ℚ × String)) (body_font_size : ℚ)
    (text : String) (dominant_size : ℚ) : Option String :=
  match alistGet heading_map dominant_size with
  | some lvl => some lvl
  | none =>
    if is_potential_heading text (some dominant_size) (some body_font_size) then
      let size_ratio : ℚ :=
        if body_font_size > 0 then dominant_size / body_font_size else 1
      if size_ratio > 3/2 then some "H1"
      else if size_ratio > 5/4 then some "H2"
      else if size_ratio > 11/10 then some "H3"
      else none
    else none

/-- One iteration of the outline loop of _parse_with_pdfminer (lines 242
to 280) on a page-numbered block: skip empty or already-seen texts and
blocks without font data, classify, and emit the entry when a level was
found and the text differs from the title. -/
def nativeStep (heading_map : List (ℚ × String)) (body_font_size : ℚ)
    (title : String) (acc : List Entry × List String) (pb : Nat × Block) :
    List Entry × List String :=
  if pb.2.text = "" ∨ acc.2.contains pb.2.text then acc
  else
    match mostCommon1 pb.2.sizes with
    | none => acc
    | some ds =>
      match nativeBlockLevel heading_map body_font_size pb.2.text ds with
      | some lvl =>
        if pb.2.text ≠ title then
          (acc.1 ++ [Entry.mk lvl pb.2.text ((pb.1 : Int) + 1)],
            acc.2 ++ [pb.2.text])
        else acc
      | none => acc

/-- Outline of the native path: fold the block loop over all pages with
their zero-based page indices, starting from an empty outline and seen
set. -/
def pdfminerOutline (heading_map : List (ℚ × String)) (body_font_size : ℚ)
    (title : String) (pages : List (List Block)) : List Entry :=
  ((pages.enum.bind (fun ib => ib.2.map (fun b => (ib.1, b)))).foldl
    (nativeStep heading_map body_font_size title) ([], [])).1

/-- OCR text block: stripped text, detection confidence and the derived
position and area metrics used downstream. -/
structure OcrBlock where
  text : String
  confidence : ℚ
  y_center : ℚ
  area : ℚ

/-- Per-page preprocessing of _parse_with_ocr: keep detections with
confidence above 0.7 and sort by descending vertical center. -/
def ocrProcessPage (blocks : List OcrBlock) : List OcrBlock :=
  sortByDesc (fun b => b.y_center)
    (blocks.filter (fun b => decide (b.confidence > 7/10)))

/-- Title of the OCR path: on the first page, among the top three
blocks, the text of the one with the largest area; empty when there is
no first page or it has no blocks. -/
def ocrTitleOf (procPages : List (List OcrBlock)) : String :=
  match procPages with
  | [] => ""
  | p0 :: _ =>
    match p0.take 3 with
    | [] => ""
    | c :: cs => (pyMaxBy (fun b => b.area) c cs).text

/-- Pattern r'^[A-Z][A-Z\s]+$' of the OCR level rule. -/
def matchCapsSpaces (cs : List Char) : Bool :=
  match cs with
  | c :: rest =>
    isAZ c && !rest.isEmpty && rest.all (fun d => isAZ d || pyIsSpace d)
  | [] => false

/-- ASCII model of a cased character for Python str.isupper. -/
def isCasedChar (c : Char) : Bool := isAZ c || isaz c

/-- Python str.isupper: at least one cased character and no lowercase
character. -/
def pyIsUpper (cs : List Char) : Bool :=
  cs.any isCasedChar && cs.all (fun c => !isaz c)

/-- Pattern r'^\d+\.' of the OCR level rule (prefix match). -/
def startsNumberedDot (cs : List Char) : Bool :=
  !(cs.takeWhile Char.isDigit).isEmpty &&
    match cs.dropWhile Char.isDigit with
    | '.' :: _ => true
    | _ => false

/-- Fixed level rule of the OCR path (lines 343 to 348): all-caps text
is H1, numbered or colon-terminated text is H2, everything else H3. -/
def ocrLevel (text : String) : String :=
  if matchCapsSpaces text.data || pyIsUpper text.data then "H1"
  else if startsNumberedDot text.data || text.data.getLast? = some ':' then "H2"
  else "H3"

/-- One iteration of the heading loop of _parse_with_ocr (lines 335 to
355): emit a block as an outline entry when its text is non-empty, not
yet seen, differs from the title and passes the heading predicate
without font information. -/
def ocrStep (title : String) (acc : List Entry × List String)
    (pb : Nat × OcrBlock) : List Entry × List String :=
  if pb.2.text ≠ "" ∧ ¬ acc.2.contains pb.2.text ∧ pb.2.text ≠ title ∧
      is_potential_heading pb.2.text none none then
    (acc.1 ++ [Entry.mk (ocrLevel pb.2.text) pb.2.text ((pb.1 : Int) + 1)],
      acc.2 ++ [pb.2.text])
  else acc

/-- PDFParser1A._parse_with_ocr on preprocessed pages: the title is
fixed by the first page before any heading is emitted (the source sets
it before the page-0 heading loop and never changes it afterwards). -/
def ocrParse (pages : List (List OcrBlock)) : DocRecord :=
  let procPages := pages.map ocrProcessPage
  let title := ocrTitleOf procPages
  DocRecord.mk title
    (((procPages.enum.bind (fun ib => ib.2.map (fun b => (ib.1, b)))).foldl
      (ocrStep title) ([], [])).1)

/-- Uniqueness invariant of a document record: pairwise distinct outline
texts and no outline text equal to the title. -/
def recInvariant (r : DocRecord) : Prop :=
  (r.outline.map (fun e => e.text)).Nodup ∧ ∀ e ∈ r.outline, e.text ≠ r.title

/-- Invariant of the in-progress accumulator of either outline loop:
distinct texts, no text equal to the title, and every emitted text
recorded in the seen set. -/
def accInv (title : String) (acc : List Entry × List String) : Prop :=
  (acc.1.map (fun e => e.text)).Nodup ∧
    (∀ e ∈ acc.1, e.text ≠ title) ∧
    ∀ e ∈ acc.1, e.text ∈ acc.2

theorem accInv_append (title : String) (acc : List Entry × List String)
    (e : Entry) (h : accInv title acc) (hseen : e.text ∉ acc.2)
    (htitle : e.text ≠ title) :
    accInv title (acc.1 ++ [e], acc.2 ++ [e.text]) := by
  obtain ⟨hnd, hti, hse⟩ := h
  refine ⟨?_, ?_, ?_⟩
  · rw [List.map_append]
    refine List.nodup_append.mpr ⟨hnd, List.nodup_singleton _, ?_⟩
    intro a ha hb
    rcases List.mem_map.mp ha with ⟨x, hx, hxa⟩
    have hab : a = e.text := by simpa using hb
    exact hseen (hab ▸ hxa ▸ hse x hx)
  · intro x hx
    rcases List.mem_append.mp hx with h1 | h1
    · exact hti x h1
    · have : x = e := by simpa using h1
      exact this ▸ htitle
  · intro x hx
    rcases List.mem_append.mp hx with h1 | h1
    · exact List.mem_append.mpr (Or.inl (hse x h1))
    · have : x = e := by simpa using h1
      exact List.mem_append.mpr (Or.inr (by simp [this]))

theorem nativeStep_accInv (heading_map : List (ℚ × String))
    (body_font_size : ℚ) (title : String) (acc : List Entry × List String)
    (pb : Nat × Block) (h : accInv title acc) :
    accInv title (nativeStep heading_map body_font_size title acc pb) := by
  unfold nativeStep
  split
  next => exact h
  next h1 =>
    split
    next => exact h
    next ds hmc =>
      split
      next lvl hbl =>
        split
        next ht =>
          push_neg at h1
          refine accInv_append title acc _ h ?_ ht
          intro hmem
          exact h1.2 (List.elem_iff.mpr hmem)
        next ht => exact h
      next hbl => exact h

theorem ocrStep_accInv (title : String) (acc : List Entry × List String)
    (pb : Nat × OcrBlock) (h : accInv title acc) :
    accInv title (ocrStep title acc pb) := by
  unfold ocrStep
  split
  next hg =>
    refine accInv_append title acc _ h ?_ hg.2.2.1
    intro hmem
    exact hg.2.1 (List.elem_iff.mpr hmem)
  next => exact h

theorem foldl_accInv {α : Type} (title : String)
    (step : (List Entry × List String) → α → (List Entry × List String))
    (hstep : ∀ acc x, accInv title acc → accInv title (step acc x))
    (items : List α) (acc : List Entry × List String) (h : accInv title acc) :
    accInv title (items.foldl step acc) := by
  induction items generalizing acc with
  | nil => exact h
  | cons x xs ih => exact ih _ (hstep _ x h)

theorem accInv_nil (title : String) : accInv title ([], []) :=
  ⟨List.nodup_nil, fun e he => absurd he (List.not_mem_nil e),
    fun e he => absurd he (List.not_mem_nil e)⟩

/-- C7: every document record produced by the native path, the OCR path,
or the orchestrator (including the merge branch) has pairwise distinct
outline texts and no outline text equal to the record title; moreover
the deduplication used by the merge keeps, for each text, exactly the
first entry carrying it. -/
theorem C7_outline_uniqueness :
    (∀ heading_map body_font_size title pages,
      recInvariant (DocRecord.mk title
        (pdfminerOutline heading_map body_font_size title pages))) ∧
    (∀ pages, recInvariant (ocrParse pages)) ∧
    (∀ r o basename, recInvariant r → recInvariant o →
      recInvariant (parse (some r) (some o) basename) ∧
      recInvariant (parse (some r) none basename) ∧
      recInvariant (parse none (some o) basename) ∧
      recInvariant (parse none none basename)) ∧
    (∀ l e, e ∈ dedupOutline l →
      l.find? (fun x => x.text == e.text) = some e) := by
  refine ⟨?_, ?_, ?_, ?_⟩
  · intro hm bfs title pages
    have h := foldl_accInv title (nativeStep hm bfs title)
      (fun acc x hx => nativeStep_accInv hm bfs title acc x hx)
      (pages.enum.bind (fun ib => ib.2.map (fun b => (ib.1, b)))) ([], [])
      (accInv_nil title)
    exact ⟨h.1, h.2.1⟩
  · intro pages
    have h := foldl_accInv (ocrTitleOf (pages.map ocrProcessPage))
      (ocrStep (ocrTitleOf (pages.map ocrProcessPage)))
      (fun acc x hx => ocrStep_accInv _ acc x hx)
      ((pages.map ocrProcessPage).enum.bind
        (fun ib => ib.2.map (fun b => (ib.1, b)))) ([], [])
      (accInv_nil _)
    exact ⟨h.1, h.2.1⟩
  · intro r o basename hr ho
    refine ⟨?_, ?_, ho, ?_⟩
    · by_cases hcond : r.title = "" ∧ r.outline = []
      · have heq : parse (some r) (some o) basename =
            DocRecord.mk (pyOrStr r.title o.title)
              (dedupOutline (r.outline ++ o.outline)) := by
          simp [parse, hcond]
        rw [heq]
        refine ⟨dedupAux_nodup _ _, ?_⟩
        intro e he
        show e.text ≠ pyOrStr r.title o.title
        have hot : pyOrStr r.title o.title = o.title := by
          simp [pyOrStr, hcond.1]
        rw [hot]
        exact ho.2 e (by simpa [hcond.2] using dedupAux_subset he)
      · have heq : parse (some r) (some o) basename = r := by
          simp [parse, hcond]
        rw [heq]
        exact hr
    · by_cases hcond : r.title = "" ∧ r.outline = []
      · have heq : parse (some r) none basename = r := by simp [parse, hcond]
        rw [heq]; exact hr
      · have heq : parse (some r) none basename = r := by simp [parse, hcond]
        rw [heq]; exact hr
    · exact ⟨List.nodup_nil, fun e he => absurd he (List.not_mem_nil e)⟩
  · exact fun l e h => dedupAux_find l [] e h

/-- C7 witness: the merge of two concrete invariant-satisfying records
satisfies the invariant. -/
theorem C7_witness :
    recInvariant (parse (some (DocRecord.mk "T" []))
      (some (DocRecord.mk "U" [Entry.mk "H1" "Intro" 1])) "a.pdf") :=
  (C7_outline_uniqueness.2.2.1 (DocRecord.mk "T" [])
    (DocRecord.mk "U" [Entry.mk "H1" "Intro" 1]) "a.pdf"
    ⟨List.nodup_nil, fun e he => absurd he (List.not_mem_nil e)⟩
    ⟨by simp, by intro e he; simp at he; simp [he]⟩).1

/-- C10: a non-empty, not-yet-seen block whose dominant size has an
entry in the heading map and whose text differs from the title is
emitted at exactly that mapped level, for EVERY text — the heading
predicate, its exclusion patterns and the 200-character/20-word limits
play no role in this branch. -/
theorem C10_fontmap_precedence (heading_map : List (ℚ × String))
    (body_font_size : ℚ) (title : String) (outline : List Entry)
    (seen : List String) (page : Nat) (blk : Block) (ds : ℚ) (lvl : String)
    (h1 : blk.text ≠ "") (h2 : ¬ seen.contains blk.text)
    (h3 : mostCommon1 blk.sizes = some ds)
    (h4 : alistGet heading_map ds = some lvl)
    (h5 : blk.text ≠ title) :
    nativeStep heading_map body_font_size title (outline, seen) (page, blk) =
      (outline ++ [Entry.mk lvl blk.text ((page : Int) + 1)],
        seen ++ [blk.text]) := by
  unfold nativeStep
  dsimp only
  rw [if_neg (fun hor => hor.elim (fun ha => h1 ha) (fun hb => h2 hb)), h3]
  dsimp only
  unfold nativeBlockLevel
  rw [h4]
  dsimp only
  rw [if_pos h5]

/-- C10 witness: the text of the block starts with an at sign, so the
heading predicate rejects it outright, yet the font-map branch still
emits it as H1. -/
theorem C10_fontmap_witness :
    is_potential_heading "@x" (some 14) (some 10) = false ∧
    nativeStep [(14, "H1")] 10 "T" ([], []) (0, Block.mk "@x" [14]) =
      ([Entry.mk "H1" "@x" 1], ["@x"]) := by
  refine ⟨by decide, ?_⟩
  exact C10_fontmap_precedence [(14, "H1")] 10 "T" [] [] 0 (Block.mk "@x" [14])
    14 "H1" (by decide) (by decide)
    (by norm_num [mostCommon1, counterPairs, pyMaxBy])
    (by norm_num [alistGet]) (by decide)

/-- JSON-like scalar value as the validator may encounter it. -/
inductive JVal where
  | jstr (s : String)
  | jint (n : Int)
  | jbool (b : Bool)
deriving DecidableEq

/-- Python str() of a scalar. -/
def pyStr : JVal → String
  | .jstr s => s
  | .jint n => toString n
  | .jbool b => if b then "True" else "False"

/-- Page coercion of validate_json_output: int(page) when page is an
int or float (a Python bool is an int), the literal 1 otherwise. -/
def pyPageCoerce : JVal → Int
  | .jint n => n
  | .jbool b => if b then 1 else 0
  | .jstr _ => 1

/-- Outline item as the validator sees it: a dict whose level/text/page
keys may be missing, or a non-dict value. -/
inductive JItem where
  | jdict (level text page : Option JVal)
  | nondict
deriving DecidableEq

/-- str(x).strip() as the validator applies it to the text field. -/
def stripStr (s : String) : String := ⟨pyStrip s.data⟩

/-- Per-item validation of validate_json_output (src/main.py lines 34 to
45): non-dict items and items missing any of the level/text/page keys
are dropped; level and text are coerced to strings and the text is
trimmed, the page is coerced; the item is kept only when the trimmed
text is non-empty and the level is exactly H1, H2 or H3. -/
def validateItem : JItem → Option Entry
  | .nondict => none
  | .jdict level text page =>
    match level, text, page with
    | some l, some t, some p =>
      if stripStr (pyStr t) ≠ "" ∧
          (pyStr l = "H1" ∨ pyStr l = "H2" ∨ pyStr l = "H3") then
        some (Entry.mk (pyStr l) (stripStr (pyStr t)) (pyPageCoerce p))
      else none
    | _, _, _ => none

/-- Validated outline: the kept items, in order. -/
def validate_outline (items : List JItem) : List Entry :=
  items.filterMap validateItem

/-- C8: the validator drops the item with level H4 entirely; a string
page value is coerced to the literal 1; every kept item has trimmed
text, a coerced page, a non-empty text and level exactly H1, H2 or H3;
items with an invalid level, an empty trimmed text, a missing key or a
non-dict shape are dropped. -/
theorem C8_validator :
    validateItem (JItem.jdict (some (JVal.jstr "H4")) (some (JVal.jstr "x"))
      (some (JVal.jint 1))) = none ∧
    (∀ s, pyPageCoerce (JVal.jstr s) = 1) ∧
    (∀ l t p e, validateItem (JItem.jdict (some l) (some t) (some p)) = some e →
      e.level = pyStr l ∧ e.text = stripStr (pyStr t) ∧
      e.page = pyPageCoerce p ∧ e.text ≠ "" ∧
      (e.level = "H1" ∨ e.level = "H2" ∨ e.level = "H3")) ∧
    (∀ l t p, ¬ (pyStr l = "H1" ∨ pyStr l = "H2" ∨ pyStr l = "H3") →
      validateItem (JItem.jdict (some l) (some t) (some p)) = none) ∧
    (∀ l t p, stripStr (pyStr t) = "" →
      validateItem (JItem.jdict (some l) (some t) (some p)) = none) ∧
    (∀ a b, validateItem (JItem.jdict none a b) = none) ∧
    (∀ a b, validateItem (JItem.jdict a none b) = none) ∧
    (∀ a b, validateItem (JItem.jdict a b none) = none) ∧
    validateItem JItem.nondict = none := by
  refine ⟨by decide, fun s => rfl, ?_, ?_, ?_, ?_, ?_, ?_, rfl⟩
  · intro l t p e h
    simp only [validateItem] at h
    split at h
    next hcond =>
      cases h
      exact ⟨rfl, rfl, rfl, hcond.1, hcond.2⟩
    next => exact Option.noConfusion h
  · intro l t p hlvl
    simp only [validateItem]
    rw [if_neg (fun hc => hlvl hc.2)]
  · intro l t p htext
    simp only [validateItem]
    rw [if_neg (fun hc => hc.1 htext)]
  · intro a b
    rfl
  · intro a b
    cases a <;> rfl
  · intro a b
    cases a <;> cases b <;> rfl

/-- C8 witness: the H4 item is dropped, the page value three is coerced
to 1, and a kept concrete item comes out with level H2, trimmed text and
page 1. -/
theorem C8_validator_witness :
    validateItem (JItem.jdict (some (JVal.jstr "H4")) (some (JVal.jstr "x"))
      (some (JVal.jint 1))) = none ∧
    pyPageCoerce (JVal.jstr "three") = 1 ∧
    (Entry.mk "H2" "Intro" 1).level = pyStr (JVal.jstr "H2") :=
  ⟨C8_validator.1, C8_validator.2.1 "three",
    (C8_validator.2.2.1 (JVal.jstr "H2") (JVal.jstr " Intro ")
      (JVal.jstr "three") (Entry.mk "H2" "Intro" 1) (by decide)).1⟩

/-- C5: the exclusion pattern r'@' is applied with re.match, which
anchors it at position 0; a text containing an at sign elsewhere is not
excluded — the text A@B passes every exclusion and is accepted by the
short-capitalised-text rule — while only a text starting with the at
sign is rejected. The inline source comment states the rule is meant to
exclude email addresses, which the anchoring defeats. -/
theorem C5_at_sign_eval :
    "A@B".data.contains '@' = true ∧
    is_potential_heading "A@B" none none = true ∧
    is_potential_heading "@section" none none = false := by
  exact ⟨by decide, by decide, by decide⟩
